import Mathlib

/-!
Verification development for the NOLA news crawler
(`newscrawler.py`, `article_vectorize.py`).

The Python code is shallowly embedded: pure fragments become Lean
functions over `String` / `List Char` / `Nat`, the JSON values handled by
the ledger become an inductive `Json` type, and the effectful main loop
becomes a fold over a list of per-item inputs (feed entry plus the
outcome of the external extraction call).  Machine (32-bit) arithmetic in
the hash is `Nat` arithmetic reduced `% 2^32`.
-/

namespace NolaCrawler

/-! ## Python string primitives

Embeddings of the Python `str` operations the crawler and the
vectorizer use: whitespace stripping, slicing, and `str.split` with a
non-empty separator (non-overlapping, left to right). -/

/-- Characters Python's default `str.strip` / `str.rstrip` remove. -/
def isPySpace (c : Char) : Bool :=
  c = ' ' || c = '\t' || c = '\n' || c = '\r' || c = '\x0b' || c = '\x0c'

/-- Python `s.lstrip()` on a character list. -/
def pyLStrip (l : List Char) : List Char := l.dropWhile isPySpace

/-- Python `s.rstrip()` on a character list. -/
def pyRStrip (l : List Char) : List Char :=
  (l.reverse.dropWhile isPySpace).reverse

/-- Python `s.strip()` on a character list. -/
def pyStrip (l : List Char) : List Char := pyRStrip (pyLStrip l)

/-- Fuel-driven core of Python `str.split(sep)` for a non-empty `sep`:
scan left to right, emitting a fragment at each non-overlapping
occurrence of `sep`.  The fuel is an upper bound on the number of scan
steps; the wrapper passes the length of the string, which suffices. -/
def splitAux (sep : List Char) : Nat → List Char → List Char → List (List Char)
  | 0, acc, rest => [acc.reverse ++ rest]
  | _ + 1, acc, [] => [acc.reverse]
  | fuel + 1, acc, c :: cs =>
    if sep.isPrefixOf (c :: cs) then
      acc.reverse :: splitAux sep fuel [] ((c :: cs).drop sep.length)
    else
      splitAux sep fuel (c :: acc) cs

/-- Python `s.split(sep)` for non-empty `sep`, over character lists. -/
def pySplit (sep l : List Char) : List (List Char) := splitAux sep l.length [] l

/-- Python slice `s[:n]`. -/
def pyTake (n : Nat) (s : String) : String := String.mk (s.data.take n)

/-! ## The hash (`sha16`, newscrawler.py lines 69-71)

`sha16(s) = hashlib.sha256(s.encode("utf-8")).hexdigest()[:16]`.
SHA-256 (FIPS 180-4) is embedded over `Nat`, with every 32-bit word kept
reduced modulo `2^32`. -/

/-- UTF-8 encoding of one Unicode scalar value, as byte values. -/
def utf8Char (c : Char) : List Nat :=
  let n := c.toNat
  if n < 0x80 then [n]
  else if n < 0x800 then [0xc0 + n / 0x40, 0x80 + n % 0x40]
  else if n < 0x10000 then
    [0xe0 + n / 0x1000, 0x80 + n / 0x40 % 0x40, 0x80 + n % 0x40]
  else
    [0xf0 + n / 0x40000, 0x80 + n / 0x1000 % 0x40, 0x80 + n / 0x40 % 0x40,
      0x80 + n % 0x40]

/-- Python `s.encode("utf-8")` as a list of byte values. -/
def utf8Bytes (s : String) : List Nat := s.data.flatMap utf8Char

/-- 32-bit right rotation (value assumed `< 2^32`). -/
def rotr (n x : Nat) : Nat := (x >>> n + x % 2 ^ n * 2 ^ (32 - n)) % 2 ^ 32

/-- Bitwise complement within 32 bits. -/
def not32 (x : Nat) : Nat := x ^^^ 0xffffffff

def ch32 (x y z : Nat) : Nat := x &&& y ^^^ not32 x &&& z

def maj32 (x y z : Nat) : Nat := x &&& y ^^^ x &&& z ^^^ y &&& z

def bigSigma0 (x : Nat) : Nat := rotr 2 x ^^^ rotr 13 x ^^^ rotr 22 x

def bigSigma1 (x : Nat) : Nat := rotr 6 x ^^^ rotr 11 x ^^^ rotr 25 x

def smallSigma0 (x : Nat) : Nat := rotr 7 x ^^^ rotr 18 x ^^^ x >>> 3

def smallSigma1 (x : Nat) : Nat := rotr 17 x ^^^ rotr 19 x ^^^ x >>> 10

/-- The 64 SHA-256 round constants of FIPS 180-4 (the fractional parts
of the cube roots of the first 64 primes), written in decimal. -/
def shaK : List Nat :=
  [1116352408, 1899447441, 3049323471, 3921009573, 961987163,
   1508970993, 2453635748, 2870763221, 3624381080, 310598401,
   607225278, 1426881987, 1925078388, 2162078206, 2614888103,
   3248222580, 3835390401, 4022224774, 264347078, 604807628,
   770255983, 1249150122, 1555081692, 1996064986, 2554220882,
   2821834349, 2952996808, 3210313671, 3336571891, 3584528711,
   113926993, 338241895, 666307205, 773529912, 1294757372,
   1396182291, 1695183700, 1986661051, 2177026350, 2456956037,
   2730485921, 2820302411, 3259730800, 3345764771, 3516065817,
   3600352804, 4094571909, 275423344, 430227734, 506948616,
   659060556, 883997877, 958139571, 1322822218, 1537002063,
   1747873779, 1955562222, 2024104815, 2227730452, 2361852424,
   2428436474, 2756734187, 3204031479, 3329325298]

/-- The eight SHA-256 working variables. -/
structure Hash8 where
  a : Nat
  b : Nat
  c : Nat
  d : Nat
  e : Nat
  f : Nat
  g : Nat
  h : Nat

/-- The initial SHA-256 hash value of FIPS 180-4 (the fractional parts
of the square roots of the first 8 primes), written in decimal. -/
def shaH0 : Hash8 :=
  ⟨1779033703, 3144134277, 1013904242, 2773480762,
   1359893119, 2600822924, 528734635, 1541459225⟩

/-- Big-endian bytes of a value, `numBytes` wide. -/
def toBE (numBytes v : Nat) : List Nat :=
  (List.range numBytes).map fun i => v / 2 ^ (8 * (numBytes - 1 - i)) % 256

/-- The sixteen initial message-schedule words of a 64-byte block. -/
def w16 (block : List Nat) : List Nat :=
  (List.range 16).map fun i =>
    block.getD (4 * i) 0 * 2 ^ 24 + block.getD (4 * i + 1) 0 * 2 ^ 16 +
      block.getD (4 * i + 2) 0 * 2 ^ 8 + block.getD (4 * i + 3) 0

/-- Extend sixteen schedule words to sixty-four. -/
def extendW (w : List Nat) : List Nat :=
  (List.range 48).foldl
    (fun acc _ =>
      acc ++ [(smallSigma1 (acc.getD (acc.length - 2) 0) +
          acc.getD (acc.length - 7) 0 +
          smallSigma0 (acc.getD (acc.length - 15) 0) +
          acc.getD (acc.length - 16) 0) % 2 ^ 32])
    w

/-- One SHA-256 round, driven by a `(k, w)` pair. -/
def shaRound (s : Hash8) (kw : Nat × Nat) : Hash8 :=
  let t1 := (s.h + bigSigma1 s.e + ch32 s.e s.f s.g + kw.1 + kw.2) % 2 ^ 32
  let t2 := (bigSigma0 s.a + maj32 s.a s.b s.c) % 2 ^ 32
  ⟨(t1 + t2) % 2 ^ 32, s.a, s.b, s.c, (s.d + t1) % 2 ^ 32, s.e, s.f, s.g⟩

/-- Compress one 64-byte block into the running hash state. -/
def shaBlock (s : Hash8) (block : List Nat) : Hash8 :=
  let t := (shaK.zip (extendW (w16 block))).foldl shaRound s
  ⟨(s.a + t.a) % 2 ^ 32, (s.b + t.b) % 2 ^ 32, (s.c + t.c) % 2 ^ 32,
   (s.d + t.d) % 2 ^ 32, (s.e + t.e) % 2 ^ 32, (s.f + t.f) % 2 ^ 32,
   (s.g + t.g) % 2 ^ 32, (s.h + t.h) % 2 ^ 32⟩

/-- Fuel-driven chunking of a byte list into 64-byte blocks. -/
def chunks64Aux : Nat → List Nat → List (List Nat)
  | 0, _ => []
  | _ + 1, [] => []
  | fuel + 1, l => l.take 64 :: chunks64Aux fuel (l.drop 64)

def chunks64 (l : List Nat) : List (List Nat) := chunks64Aux l.length l

/-- SHA-256 padding: `0x80`, zeros to 56 mod 64, 8-byte big-endian bit length. -/
def shaPad (msg : List Nat) : List Nat :=
  msg ++ [0x80] ++ List.replicate ((64 + 56 - (msg.length + 1) % 64) % 64) 0 ++
    toBE 8 (msg.length * 8)

/-- SHA-256 digest of a byte list, as 32 byte values. -/
def sha256 (msg : List Nat) : List Nat :=
  let s := (chunks64 (shaPad msg)).foldl shaBlock shaH0
  toBE 4 s.a ++ toBE 4 s.b ++ toBE 4 s.c ++ toBE 4 s.d ++
    toBE 4 s.e ++ toBE 4 s.f ++ toBE 4 s.g ++ toBE 4 s.h

/-- Lowercase hexadecimal digit for a nibble. -/
def hexDigit (n : Nat) : Char :=
  if n < 10 then Char.ofNat (48 + n) else Char.ofNat (87 + n)

/-- A lowercase hexadecimal digit. -/
def isLowerHex (c : Char) : Bool :=
  c.isDigit || ('a' ≤ c && c ≤ 'f')

/-- Lowercase hex rendering of a byte list (Python `hexdigest`). -/
def bytesToHex (bs : List Nat) : List Char :=
  bs.flatMap fun b => [hexDigit (b / 16 % 16), hexDigit (b % 16)]

/-- `sha16` (newscrawler.py line 69): first 16 hex digits of the SHA-256
of the UTF-8 encoding of the input. -/
def sha16 (s : String) : String :=
  String.mk ((bytesToHex (sha256 (utf8Bytes s))).take 16)

example : sha16 "abc" = "ba7816bf8f01cfea" := by decide

example : sha16 "" = "e3b0c44298fc1c14" := by decide

/-! ## JSON values and the ledger

The remote `articles.json` parses to an arbitrary JSON value; records
are JSON objects.  Python truthiness on JSON-derived values is embedded
as `jTruthy`. -/

inductive Json where
  | null : Json
  | bool : Bool → Json
  | num : Int → Json
  | str : String → Json
  | arr : List Json → Json
  | obj : List (String × Json) → Json

/-- Python truthiness of a JSON-derived value. -/
def jTruthy : Json → Bool
  | .null => false
  | .bool b => b
  | .num n => n ≠ 0
  | .str s => s ≠ ""
  | .arr l => !l.isEmpty
  | .obj kvs => !kvs.isEmpty

/-- Python `dict.get(key)` on a JSON object (`none` elsewhere). -/
def objGet (key : String) : Json → Option Json
  | .obj kvs => kvs.lookup key
  | _ => none

/-- Truthiness of an optional value (`dict.get` may return `None`). -/
def optTruthy : Option Json → Bool
  | none => false
  | some j => jTruthy j

/-- `load_articles_from_box`, lines 149-155: once `articles.json` has
been downloaded and parsed, return the parsed value if it is a list and
the empty list otherwise. -/
def ledgerFromParsed : Json → List Json
  | .arr l => l
  | _ => []

/-- `get_seen_urls` (lines 168-170): the set of truthy `id` values of
the loaded records, as a list with membership as the set semantics. -/
def seenIds (articles : List Json) : List Json :=
  articles.filterMap fun a =>
    if optTruthy (objGet "id" a) then objGet "id" a else none

/-! ## Relevance filter (`looks_relevant`, lines 348-358) -/

/-- The fixed keyword set (lines 58-67). -/
def KEYWORDS : List String :=
  ["city council", "ordinance", "zoning", "budget", "millage",
   "public works", "sewerage & water board", "swbno", "dpw",
   "planning commission", "permit", "tax", "mayor", "poll",
   "school board", "reform", "bond", "levy", "land use",
   "infrastructure", "litigation", "city hall", "municipal", "nopd",
   "nofd", "crime", "public safety", "drainage", "flooding",
   "affordable housing", "rta", "streetcar", "neighborhood",
   "city attorney", "audit", "tourism", "economic development",
   "property tax", "blight", "sanitation", "street repair", "pothole",
   "traffic", "parking"]

/-- Python `needle in hay` substring test on character lists. -/
def pyContains (needle : List Char) : List Char → Bool
  | [] => needle.isPrefixOf []
  | c :: cs => needle.isPrefixOf (c :: cs) || pyContains needle cs

/-- `looks_relevant(title, text)`: lower-case the blob
`f"{title}\n{text}"` and test each keyword for substring membership. -/
def looksRelevant (title text : String) : Bool :=
  let blob := (title.data ++ '\n' :: text.data).map Char.toLower
  KEYWORDS.any fun k => pyContains k.data blob

/-! ## Filename pieces (`main`, lines 446-450) -/

/-- The character filter of the title sanitizer:
`c.isalnum() or c in (' ', '-', '_')`. -/
def keepChar (c : Char) : Bool :=
  c.isAlphanum || c = ' ' || c = '-' || c = '_'

/-- `clean_title` (lines 448-449): keep alphanumerics, spaces, hyphens
and underscores, strip trailing whitespace, then slice to 50 chars. -/
def cleanTitle (title : String) : String :=
  String.mk ((pyRStrip (title.data.filter keepChar)).take 50)

/-- The markdown filename (lines 447-450):
`f"{published_date}_{key}_{clean_title}.md"` with
`published_date = rec["published"][:10] if rec.get("published") else
dt.date.today().isoformat()`.  Today's ISO date is a parameter. -/
def mdFilename (published today key title : String) : String :=
  (if published = "" then today else pyTake 10 published) ++ "_" ++ key ++
    "_" ++ cleanTitle title ++ ".md"

/-- `YYYY-MM-DD` shape: ten characters, digits with dashes at
positions 4 and 7. -/
def isDateShape (s : String) : Bool :=
  s.data.length = 10 &&
    (s.data.getD 0 ' ').isDigit && (s.data.getD 1 ' ').isDigit &&
    (s.data.getD 2 ' ').isDigit && (s.data.getD 3 ' ').isDigit &&
    s.data.getD 4 ' ' = '-' &&
    (s.data.getD 5 ' ').isDigit && (s.data.getD 6 ' ').isDigit &&
    s.data.getD 7 ' ' = '-' &&
    (s.data.getD 8 ' ').isDigit && (s.data.getD 9 ' ').isDigit

/-! ## Document rendering (`record_md`, lines 360-372) and parsing
(`make_vector_db`, article_vectorize.py lines 26-42) -/

/-- `record_md`: frontmatter block plus body, as a character list. -/
def record_md (source title url published savedAt body : String) :
    List Char :=
  "---\nsource: ".data ++ source.data ++ "\ntitle: ".data ++ title.data ++
    "\nurl: ".data ++ url.data ++ "\npublished: ".data ++ published.data ++
    "\nsaved_at: ".data ++ savedAt.data ++ "\n---\n\n".data ++ body.data ++
    "\n".data

/-- Parse one frontmatter line: Python
`if ':' in line: key, val = line.split(':', 1)`, both stripped. -/
def parseFmLine (line : List Char) : Option (String × String) :=
  let before := line.takeWhile (· ≠ ':')
  let rest := line.dropWhile (· ≠ ':')
  match rest with
  | [] => none
  | _ :: afterColon =>
    some (String.mk (pyStrip before), String.mk (pyStrip afterColon))

/-- The vectorizer's document parse (article_vectorize.py lines 26-39):
split the content on `---`, require at least three parts, parse
`parts[1]` as stripped `key: value` lines, and take `parts[2]`
stripped as the body. -/
def parse_md (content : List Char) : Option (List (String × String) × String) :=
  let parts := pySplit "---".data content
  if parts.length < 3 then none
  else
    let fmLines := pySplit ['\n'] (pyStrip (parts.getD 1 []))
    some (fmLines.filterMap parseFmLine,
      String.mk (pyStrip (parts.getD 2 [])))

/-! ## Extraction fallback (`extract_text`, lines 313-339)

The external calls (trafilatura, the soup lookup, the paragraph texts)
are inputs; the fallback control flow and the joining/filtering logic
are the embedded source.  `downloaded0` is the trafilatura result
(`none` models Python `None`), `articleFound` whether the soup found an
article/content element, `articleParas` the stripped texts of its
`p`/`h2`/`h3` elements, and `pageParas` the stripped texts of all `p`
elements of the page. -/

/-- `not downloaded or len(downloaded) < 100`. -/
def weakResult : Option String → Bool
  | none => true
  | some s => s.length < 100

/-- `"\n\n".join(...)` -/
def joinBlank : List String → String
  | [] => ""
  | [p] => p
  | p :: ps => p ++ "\n\n" ++ joinBlank ps

/-- The structural-heuristic stage body as the code computes it:
paragraphs strictly longer than 20 characters, blank-line joined
(`if len(p) > 20`, line 328). -/
def structuralBody (paras : List String) : String :=
  joinBlank (paras.filter fun p => p.length > 20)

/-- The structural-heuristic stage as the spec sentence describes it:
paragraphs of at least 20 characters. -/
def structuralBodySpec (paras : List String) : String :=
  joinBlank (paras.filter fun p => p.length ≥ 20)

/-- The all-paragraphs fallback (lines 331-333), same 20-char filter. -/
def allParasBody (paras : List String) : String :=
  joinBlank (paras.filter fun p => p.length > 20)

/-- The body-selection logic of `extract_text` (lines 313-339). -/
def extractBody (downloaded0 : Option String) (articleFound : Bool)
    (articleParas pageParas : List String) : String :=
  let d1 :=
    if weakResult downloaded0 then
      if articleFound then some (structuralBody articleParas) else downloaded0
    else downloaded0
  let d2 :=
    if weakResult downloaded0 then
      if weakResult d1 then some (allParasBody pageParas) else d1
    else d1
  match d2 with
  | none => ""
  | some s => s

/-! ## The main loop (`main`, lines 374-493)

Feed entries and the outcome of the external extraction call are run
inputs; the dedup test, relevance gate, record construction, seen-set
update and the final ledger merge are the embedded source. -/

/-- A normalized feed entry (`fetch_rss_entries`). -/
structure FeedItem where
  title : String
  url : Option String
  published : String
  source : String

/-- Outcome of `extract_text(url)`: an exception anywhere in the
per-item `try` block before the record is appended, or an extracted
`(title, text)` pair. -/
inductive FetchOutcome where
  | err : FetchOutcome
  | ok : String → String → FetchOutcome

/-- One loop iteration's inputs: the feed entry, the external
extraction outcome, and the `saved_at` timestamp taken at that
iteration. -/
structure RunItem where
  item : FeedItem
  fetch : FetchOutcome
  savedAt : String

/-- `content_preview` (line 443). -/
def contentPreview (fullText : String) : String :=
  if fullText.length > 200 then pyTake 200 fullText ++ "..." else fullText

/-- The record dict built at lines 436-444. -/
def mkRecord (key source url title published savedAt fullText : String) :
    Json :=
  .obj [("id", .str key), ("source", .str source), ("url", .str url),
    ("title", .str title), ("published", .str published),
    ("saved_at", .str savedAt),
    ("content_preview", .str (contentPreview fullText))]

/-- Python equality of a `str` against a JSON-derived set element:
true only for an equal string. -/
def isStrJson (s : String) : Json → Bool
  | .str t => s = t
  | _ => false

/-- `key in seen` for a string key. -/
def seenHasStr (s : String) (seen : List Json) : Bool :=
  seen.any (isStrJson s)

/-- Mutable loop state: `new_articles` and the in-memory `seen` set. -/
structure RunState where
  newArticles : List Json
  seen : List Json

/-- One iteration of the entry loop (lines 406-471). -/
def stepItem (st : RunState) (ri : RunItem) : RunState :=
  match ri.item.url with
  | none => st
  | some u =>
    let key := sha16 u
    if seenHasStr key st.seen then st
    else
      match ri.fetch with
      | .err => st
      | .ok titleExt text =>
        let title := if titleExt = "" then ri.item.title else titleExt
        if looksRelevant title text then
          let fullText := String.mk (pyStrip text.data)
          { newArticles := st.newArticles ++
              [mkRecord key ri.item.source u title ri.item.published
                ri.savedAt fullText],
            seen := Json.str key :: st.seen }
        else st

/-- The whole entry loop, starting from the loaded ledger's seen set. -/
def runItems (loaded : List Json) (items : List RunItem) : RunState :=
  items.foldl stepItem ⟨[], seenIds loaded⟩

/-- The ledger content written by `save_articles_to_box` after
`articles.extend(new_articles)` (lines 473-476). -/
def mergeContent (existing newRecords : List Json) : List Json :=
  existing ++ newRecords

/-- The remote ledger document at the end of a run (lines 473-476): the
merge is performed and written back only when `new_articles` is
non-empty; otherwise the remote document is untouched. -/
def remoteAfterRun (remote : List Json) (items : List RunItem) : List Json :=
  let st := runItems remote items
  if st.newArticles.isEmpty then remote else mergeContent remote st.newArticles

/-- The new records of a run. -/
def newOfRun (remote : List Json) (items : List RunItem) : List Json :=
  (runItems remote items).newArticles

/-- No occurrence of `sep` begins at any position of the segment `a`
when the scan continues into `rest`. -/
def NoHit (sep a rest : List Char) : Prop :=
  ∀ i < a.length, ¬ sep <+: (a.drop i ++ rest)

/-- Neither end of the character list is Python whitespace (so Python
`strip` leaves it unchanged). -/
def noEdgeSpace (l : List Char) : Bool :=
  (match l.head? with
    | none => true
    | some c => !isPySpace c) &&
  (match l.getLast? with
    | none => true
    | some c => !isPySpace c)

/-- The well-formedness of one frontmatter field for the round trip: no
newline, no `---` occurrence, and no whitespace at either end. -/
def fieldOk (f : String) : Prop :=
  '\n' ∉ f.data ∧ pyContains "---".data f.data = false ∧
    noEdgeSpace f.data = true

/-- The part of the rendered document between the two `---` delimiter
occurrences. -/
def fmPart (source title url published savedAt : String) : List Char :=
  '\n' :: ("source: ".data ++ (source.data ++ ('\n' :: ("title: ".data ++
    (title.data ++ ('\n' :: ("url: ".data ++ (url.data ++ ('\n' ::
    ("published: ".data ++ (published.data ++ ('\n' :: ("saved_at: ".data ++
    (savedAt.data ++ ['\n']))))))))))))))

/-- The part of the rendered document after the second `---`. -/
def bodyPart (body : String) : List Char :=
  '\n' :: '\n' :: (body.data ++ ['\n'])

/-- Loop invariant tying the seen set to the accumulated new records:
the loaded ledger's seen ids stay seen, every new record has a
non-empty string id that is in the seen set, the new records' ids are
pairwise distinct, and no new record shares an id with a loaded one. -/
def SeenInv (loaded : List Json) (st : RunState) : Prop :=
  (∀ j ∈ seenIds loaded, j ∈ st.seen) ∧
    (∀ r ∈ st.newArticles,
      ∃ k, objGet "id" r = some (Json.str k) ∧ k ≠ "" ∧
        Json.str k ∈ st.seen) ∧
    (st.newArticles.map (objGet "id")).Nodup ∧
    (∀ r ∈ st.newArticles, ∀ l ∈ loaded, objGet "id" r ≠ objGet "id" l)

/-! ## Helper lemmas about the hash -/

lemma toBE_length (n v : Nat) : (toBE n v).length = n := by
  simp [toBE]

lemma bytesToHex_length (bs : List Nat) :
    (bytesToHex bs).length = 2 * bs.length := by
  induction bs with
  | nil => simp [bytesToHex]
  | cons b bs ih => simp [bytesToHex] at ih ⊢; omega

lemma sha256_length (msg : List Nat) : (sha256 msg).length = 32 := by
  simp [sha256, toBE_length]

lemma sha16_length (s : String) : (sha16 s).length = 16 := by
  have h := bytesToHex_length (sha256 (utf8Bytes s))
  rw [sha256_length] at h
  show ((bytesToHex (sha256 (utf8Bytes s))).take 16).length = 16
  rw [List.length_take, h]
  omega

lemma hexDigit_isLowerHex (n : Nat) : isLowerHex (hexDigit (n % 16)) = true := by
  have h : n % 16 < 16 := Nat.mod_lt _ (by norm_num)
  revert h
  generalize n % 16 = m
  intro h
  interval_cases m <;> decide

lemma mem_bytesToHex (bs : List Nat) :
    ∀ c ∈ bytesToHex bs, isLowerHex c = true := by
  induction bs with
  | nil => simp [bytesToHex]
  | cons b bs ih =>
    intro c hc
    simp only [bytesToHex, List.flatMap_cons] at hc
    rcases List.mem_append.mp hc with h | h
    · rcases List.mem_cons.mp h with rfl | h2
      · exact hexDigit_isLowerHex _
      · rcases List.mem_cons.mp h2 with rfl | h3
        · exact hexDigit_isLowerHex _
        · cases h3
    · exact ih c h

lemma mem_sha16_hex (s : String) :
    ∀ c ∈ (sha16 s).data, isLowerHex c = true := by
  intro c hc
  exact mem_bytesToHex _ c (List.take_subset _ _ hc)

lemma sha16_ne_empty (s : String) : sha16 s ≠ "" := by
  intro h
  have := sha16_length s
  rw [h] at this
  simp at this

/-! ## C7: the identifier function -/

/-- Claim C7: for every string, `sha16` is deterministic and its result
is exactly 16 lowercase hexadecimal characters, namely the first 16 hex
digits of the SHA-256 of the UTF-8 encoding of the input. -/
theorem claim_sha16_deterministic_hex (u v : String) (h : u = v) :
    sha16 u = sha16 v ∧ (sha16 u).length = 16 ∧
      (∀ c ∈ (sha16 u).data, isLowerHex c = true) ∧
      sha16 u = String.mk ((bytesToHex (sha256 (utf8Bytes u))).take 16) :=
  ⟨by rw [h], sha16_length u, mem_sha16_hex u, rfl⟩

/-- Witness for C7 at the URL `https://example.com/a`. -/
theorem claim_sha16_deterministic_hex_witness :
    sha16 "https://example.com/a" = sha16 "https://example.com/a" ∧
      (sha16 "https://example.com/a").length = 16 ∧
      (∀ c ∈ (sha16 "https://example.com/a").data, isLowerHex c = true) ∧
      sha16 "https://example.com/a" =
        String.mk
          ((bytesToHex (sha256 (utf8Bytes "https://example.com/a"))).take 16) :=
  claim_sha16_deterministic_hex _ _ rfl

/-! ## C6: the relevance filter -/

lemma isPrefixOf_eq (l₁ l₂ : List Char) :
    l₁.isPrefixOf l₂ = true ↔ l₁ <+: l₂ := by
  induction l₁ generalizing l₂ with
  | nil => simp [List.isPrefixOf]
  | cons a as ih =>
    cases l₂ with
    | nil => simp [List.isPrefixOf]
    | cons b bs => simp [List.isPrefixOf, ih, List.cons_prefix_cons]

lemma pyContains_iff (needle hay : List Char) :
    pyContains needle hay = true ↔ needle <:+: hay := by
  induction hay with
  | nil => simp [pyContains, isPrefixOf_eq]
  | cons c cs ih =>
    simp [pyContains, isPrefixOf_eq, ih, List.infix_cons_iff]

/-- Claim C6: the relevance filter returns true iff some keyword of the
fixed set is a substring of the lower-cased concatenation of title and
body; true on ("City Council", ""), false on ("cats", "we like cats"). -/
theorem claim_relevance_filter (title text : String) :
    (looksRelevant title text = true ↔
      ∃ k ∈ KEYWORDS,
        k.data <:+: ((title.data ++ '\n' :: text.data).map Char.toLower)) ∧
      looksRelevant "City Council" "" = true ∧
      looksRelevant "cats" "we like cats" = false := by
  refine ⟨?_, by decide, by decide⟩
  simp [looksRelevant, List.any_eq_true, pyContains_iff]

/-! ## C8: filename sanitization -/

lemma head?_dropWhile (p : Char → Bool) (l : List Char) :
    ∀ c, (l.dropWhile p).head? = some c → p c = false := by
  induction l with
  | nil => intro c h; cases h
  | cons a as ih =>
    intro c h
    by_cases hp : p a = true
    · simp [List.dropWhile, hp] at h
      exact ih c h
    · simp [List.dropWhile, hp] at h
      subst h
      simpa using hp

lemma pyRStrip_subset (l : List Char) : pyRStrip l ⊆ l := by
  intro x hx
  simp only [pyRStrip, List.mem_reverse] at hx
  have := (List.dropWhile_sublist (p := isPySpace) (l := l.reverse)).subset hx
  simpa using this

/-- Claim C8: sanitization keeps only alphanumerics, spaces, hyphens and
underscores, trims trailing whitespace (whenever the 50-char truncation
did not cut the result), truncates to at most 50 characters, and maps
"Budget: 2024/25 Review!" to "Budget 202425 Review". -/
theorem claim_sanitize_title (t : String) :
    (∀ c ∈ (cleanTitle t).data, keepChar c = true) ∧
      (cleanTitle t).length ≤ 50 ∧
      ((cleanTitle t).length < 50 →
        ∀ c, (cleanTitle t).data.getLast? = some c → isPySpace c = false) ∧
      cleanTitle "Budget: 2024/25 Review!" = "Budget 202425 Review" := by
  refine ⟨?_, ?_, ?_, by decide⟩
  · intro c hc
    have h1 : c ∈ pyRStrip (t.data.filter keepChar) :=
      List.take_subset _ _ hc
    exact (List.mem_filter.mp (pyRStrip_subset _ h1)).2
  · show ((pyRStrip (t.data.filter keepChar)).take 50).length ≤ 50
    rw [List.length_take]
    omega
  · intro hlt c hc
    have hmin : (cleanTitle t).length =
        min 50 (pyRStrip (t.data.filter keepChar)).length := by
      show ((pyRStrip (t.data.filter keepChar)).take 50).length = _
      rw [List.length_take]
    have hlen : (pyRStrip (t.data.filter keepChar)).length < 50 := by omega
    have heq : (cleanTitle t).data = pyRStrip (t.data.filter keepChar) := by
      show (pyRStrip (t.data.filter keepChar)).take 50 = _
      exact List.take_of_length_le (by omega)
    rw [heq] at hc
    simp only [pyRStrip, List.getLast?_reverse] at hc
    exact head?_dropWhile _ _ c hc

/-- Witness for C8 at the spec's example title. -/
theorem claim_sanitize_title_witness :
    (∀ c ∈ (cleanTitle "Budget: 2024/25 Review!").data, keepChar c = true) ∧
      (cleanTitle "Budget: 2024/25 Review!").length ≤ 50 ∧
      (∀ c, (cleanTitle "Budget: 2024/25 Review!").data.getLast? = some c →
        isPySpace c = false) ∧
      cleanTitle "Budget: 2024/25 Review!" = "Budget 202425 Review" :=
  have h := claim_sanitize_title "Budget: 2024/25 Review!"
  ⟨h.1, h.2.1, h.2.2.1 (by decide), h.2.2.2⟩

/-! ## C9: non-list ledger content -/

/-- Claim C9: when the downloaded `articles.json` parses as JSON but not
as a list, the load returns the empty ledger rather than failing or
returning the value. -/
theorem claim_ledger_nonlist (j : Json) (h : ∀ l, j ≠ Json.arr l) :
    ledgerFromParsed j = [] := by
  cases j <;> first | rfl | exact absurd rfl (h _)

/-- Witness for C9 at a JSON object. -/
theorem claim_ledger_nonlist_witness :
    ledgerFromParsed (Json.obj [("note", Json.str "not a list")]) = [] :=
  claim_ledger_nonlist _ (fun _ h => Json.noConfusion h)

/-! ## C5: extraction fallback ordering -/

/-- Counterexample to C5 as stated: the structural stage keeps only
paragraphs strictly longer than 20 characters (`len(p) > 20`), so on a
page whose article element holds five paragraphs of exactly 20
characters the spec-described stage (at least 20 characters) yields 108
characters, yet the code's structural join is empty and the result
falls through to the all-paragraphs stage. -/
theorem claim_extract_fallback_counterexample :
    weakResult (some "") = true ∧
      100 ≤ (structuralBodySpec ["aaaaaaaaaaaaaaaaaaaa",
        "aaaaaaaaaaaaaaaaaaaa", "aaaaaaaaaaaaaaaaaaaa",
        "aaaaaaaaaaaaaaaaaaaa", "aaaaaaaaaaaaaaaaaaaa"]).length ∧
      extractBody (some "") true
          ["aaaaaaaaaaaaaaaaaaaa", "aaaaaaaaaaaaaaaaaaaa",
            "aaaaaaaaaaaaaaaaaaaa", "aaaaaaaaaaaaaaaaaaaa",
            "aaaaaaaaaaaaaaaaaaaa"] [] ≠
        structuralBodySpec ["aaaaaaaaaaaaaaaaaaaa", "aaaaaaaaaaaaaaaaaaaa",
          "aaaaaaaaaaaaaaaaaaaa", "aaaaaaaaaaaaaaaaaaaa",
          "aaaaaaaaaaaaaaaaaaaa"] := by
  decide

/-- Claim C5 (amended: the structural stage keeps paragraphs of more
than 20 characters): when the primary result is weak and the structural
stage clears 100 characters, the returned body is the structural
stage's result, for every possible all-paragraphs input. -/
theorem claim_extract_fallback (d0 : Option String)
    (aps pps : List String) (h1 : weakResult d0 = true)
    (h2 : 100 ≤ (structuralBody aps).length) :
    extractBody d0 true aps pps = structuralBody aps := by
  have hw : weakResult (some (structuralBody aps)) = false := by
    simp [weakResult]
    omega
  simp [extractBody, h1, hw]

/-- Witness for the amended C5 on a 100-character paragraph. -/
theorem claim_extract_fallback_witness :
    extractBody none true
        ["bbbbbbbbbbbbbbbbbbbbbbbbbbbbbbbbbbbbbbbbbbbbbbbbbbbbbbbbbbbbbbbbbbbbbbbbbbbbbbbbbbbbbbbbbbbbbbbbbbbb"]
        ["x"] =
      structuralBody
        ["bbbbbbbbbbbbbbbbbbbbbbbbbbbbbbbbbbbbbbbbbbbbbbbbbbbbbbbbbbbbbbbbbbbbbbbbbbbbbbbbbbbbbbbbbbbbbbbbbbbb"] :=
  claim_extract_fallback none _ _ (by decide) (by decide)

/-! ## C3: the filename convention -/

/-- Counterexample to C3 as stated: with the RSS-style published value
"Wed, 02 Oct 2002 08:00:00 EST" the filename starts with its first ten
characters "Wed, 02 Oc", which is not of YYYY-MM-DD shape, so no
decomposition of the filename has a date-shaped first component. -/
lemma isDateShape_congr (s t : String) (h : s.data = t.data) :
    isDateShape s = isDateShape t := by
  unfold isDateShape
  rw [h]

theorem claim_filename_counterexample :
    ¬ ∃ d rest : String,
      mdFilename "Wed, 02 Oct 2002 08:00:00 EST" "2025-10-12"
          (sha16 "https://example.com/a") "Council roundup" =
        d ++ "_" ++ rest ∧ isDateShape d = true := by
  rintro ⟨d, rest, heq, hshape⟩
  have hlen : d.data.length = 10 := by
    have hdl : d.length = d.data.length := rfl
    simp [isDateShape] at hshape
    omega
  have htake := congrArg (fun s : String => s.data.take 10) heq
  simp only at htake
  have hL : (mdFilename "Wed, 02 Oct 2002 08:00:00 EST" "2025-10-12"
      (sha16 "https://example.com/a") "Council roundup").data.take 10 =
      "Wed, 02 Oc".data := by rfl
  have hR : (d ++ "_" ++ rest).data.take 10 = d.data := by
    have hsplit : (d ++ "_" ++ rest).data = d.data ++ ('_' :: rest.data) := by
      simp [String.data_append]
    rw [hsplit, List.take_left' hlen]
  rw [hL, hR] at htake
  have hds : isDateShape d = isDateShape "Wed, 02 Oc" :=
    isDateShape_congr _ _ htake.symm
  rw [hds] at hshape
  exact absurd hshape (by decide)

/-- Claim C3 (amended: the first filename component is the first ten
characters of the published field when it is non-empty — which is the
YYYY-MM-DD date exactly when the field starts with one — and today's
ISO date otherwise): the filename is
`{first-component}_{16-hex-id}_{sanitized-title}.md` with the id the
16-lowercase-hex `sha16` of the URL. -/
theorem claim_filename_form (url published today title : String) :
    mdFilename published today (sha16 url) title =
      (if published = "" then today else pyTake 10 published) ++ "_" ++
        sha16 url ++ "_" ++ cleanTitle title ++ ".md" ∧
      (sha16 url).length = 16 ∧
      (∀ c ∈ (sha16 url).data, isLowerHex c = true) :=
  ⟨rfl, sha16_length url, mem_sha16_hex url⟩

/-! ## C1: the ledger merge -/

lemma remoteAfterRun_eq (remote : List Json) (items : List RunItem) :
    remoteAfterRun remote items = remote ++ newOfRun remote items := by
  show (if (runItems remote items).newArticles.isEmpty = true then remote
      else remote ++ (runItems remote items).newArticles) =
    remote ++ (runItems remote items).newArticles
  split
  · next h =>
    rw [List.isEmpty_iff.mp h, List.append_nil]
  · rfl

/-- Claim C1: the ledger written back is exactly the existing records
followed by the new ones — the existing prefix unchanged, the new
records appended at the end, and the whole document overwritten — and
when no new records exist the remote document is left unchanged; the
merge content on the spec's example appends in order. -/
theorem claim_merge_and_persist (remote : List Json) (items : List RunItem) :
    remoteAfterRun remote items =
        mergeContent remote (newOfRun remote items) ∧
      (remoteAfterRun remote items).take remote.length = remote ∧
      (remoteAfterRun remote items).drop remote.length =
        newOfRun remote items ∧
      (newOfRun remote items = [] → remoteAfterRun remote items = remote) ∧
      mergeContent [Json.obj [("id", Json.str "a")],
          Json.obj [("id", Json.str "b")]] [Json.obj [("id", Json.str "c")]] =
        [Json.obj [("id", Json.str "a")], Json.obj [("id", Json.str "b")],
          Json.obj [("id", Json.str "c")]] := by
  refine ⟨remoteAfterRun_eq remote items, ?_, ?_, ?_, rfl⟩
  · rw [remoteAfterRun_eq, List.take_left]
  · rw [remoteAfterRun_eq, List.drop_left]
  · intro h
    rw [remoteAfterRun_eq, h, List.append_nil]

/-- Witness for C1: a run over no items leaves the remote ledger
unchanged. -/
theorem claim_merge_and_persist_witness :
    remoteAfterRun [Json.obj [("id", Json.str "a")]] [] =
      [Json.obj [("id", Json.str "a")]] :=
  (claim_merge_and_persist [Json.obj [("id", Json.str "a")]] []).2.2.2.1 rfl

/-! ## C2: no duplicate ids in the ledger -/

lemma seenHasStr_false_not_mem {k : String} {seen : List Json}
    (h : seenHasStr k seen = false) : Json.str k ∉ seen := by
  intro hmem
  have htrue : seenHasStr k seen = true :=
    List.any_eq_true.mpr ⟨_, hmem, by simp [isStrJson]⟩
  rw [h] at htrue
  cases htrue

lemma objGet_mkRecord (key source url title published savedAt fullText :
    String) :
    objGet "id"
        (mkRecord key source url title published savedAt fullText) =
      some (Json.str key) := rfl

/-- Every step either leaves the state unchanged or appends one record
keyed by the item URL's hash, which was not in the seen set, and adds
that key to the seen set. -/
lemma stepItem_cases (st : RunState) (ri : RunItem) :
    stepItem st ri = st ∨
      ∃ u titleExt text, ri.item.url = some u ∧
        seenHasStr (sha16 u) st.seen = false ∧
        ri.fetch = .ok titleExt text ∧
        stepItem st ri =
          ⟨st.newArticles ++
            [mkRecord (sha16 u) ri.item.source u
              (if titleExt = "" then ri.item.title else titleExt)
              ri.item.published ri.savedAt
              (String.mk (pyStrip text.data))],
            Json.str (sha16 u) :: st.seen⟩ := by
  cases hurl : ri.item.url with
  | none => left; simp [stepItem, hurl]
  | some u =>
    by_cases hseen : seenHasStr (sha16 u) st.seen = true
    · left; simp [stepItem, hurl, hseen]
    · have hseen' : seenHasStr (sha16 u) st.seen = false := by
        simpa using hseen
      cases hf : ri.fetch with
      | err => left; simp [stepItem, hurl, hseen', hf]
      | ok tE tx =>
        by_cases hrel :
            looksRelevant (if tE = "" then ri.item.title else tE) tx = true
        · right
          exact ⟨u, tE, tx, rfl, hseen', rfl,
            by simp [stepItem, hurl, hseen', hf, hrel]⟩
        · left
          have hrel' :
              looksRelevant (if tE = "" then ri.item.title else tE) tx =
                false := by simpa using hrel
          simp [stepItem, hurl, hseen', hf, hrel']

lemma stepItem_inv {loaded : List Json} {st : RunState} (ri : RunItem)
    (h : SeenInv loaded st) : SeenInv loaded (stepItem st ri) := by
  rcases stepItem_cases st ri with heq | ⟨u, tE, tx, -, hseen, -, heq⟩
  · rw [heq]; exact h
  · obtain ⟨hloaded, hnew, hnodup, hcross⟩ := h
    have hkey : Json.str (sha16 u) ∉ st.seen := seenHasStr_false_not_mem hseen
    rw [heq]
    refine ⟨?_, ?_, ?_, ?_⟩
    · intro j hj
      exact List.mem_cons_of_mem _ (hloaded j hj)
    · intro r hr
      rcases List.mem_append.mp hr with hr | hr
      · obtain ⟨k, hk1, hk2, hk3⟩ := hnew r hr
        exact ⟨k, hk1, hk2, List.mem_cons_of_mem _ hk3⟩
      · rcases List.mem_singleton.mp hr with rfl
        exact ⟨sha16 u, objGet_mkRecord _ _ _ _ _ _ _, sha16_ne_empty u,
          List.mem_cons_self _ _⟩
    · rw [List.map_append, List.nodup_append]
      refine ⟨hnodup, by simp, ?_⟩
      intro x hx hx'
      simp only [List.map_cons, List.map_nil, List.mem_singleton] at hx'
      obtain ⟨r, hr, hrid⟩ := List.mem_map.mp hx
      obtain ⟨k, hk1, -, hk3⟩ := hnew r hr
      rw [hx', objGet_mkRecord] at hrid
      rw [hrid] at hk1
      have : k = sha16 u := by
        have := hk1
        injection this with h1
        injection h1 with h2
        exact h2.symm
      rw [this] at hk3
      exact hkey hk3
    · intro r hr l hl
      rcases List.mem_append.mp hr with hr | hr
      · exact hcross r hr l hl
      · rcases List.mem_singleton.mp hr with rfl
        rw [objGet_mkRecord]
        intro hcontra
        have htr : optTruthy (objGet "id" l) = true := by
          rw [← hcontra]
          simp [optTruthy, jTruthy, sha16_ne_empty u]
        have hmem : Json.str (sha16 u) ∈ seenIds loaded := by
          apply List.mem_filterMap.mpr
          exact ⟨l, hl, by rw [htr]; simp; exact hcontra.symm⟩
        exact hkey (hloaded _ hmem)

lemma runItems_inv (loaded : List Json) (items : List RunItem) :
    SeenInv loaded (runItems loaded items) := by
  have hinit : SeenInv loaded ⟨[], seenIds loaded⟩ :=
    ⟨fun j hj => hj, by simp, by simp, by simp⟩
  unfold runItems
  generalize hst : (⟨[], seenIds loaded⟩ : RunState) = st at hinit
  clear hst
  induction items generalizing st with
  | nil => exact hinit
  | cons ri rest ih => exact ih _ (stepItem_inv ri hinit)

/-- Claim C2: starting from a loaded ledger with pairwise-distinct id
fields, the ledger at the end of the run again has pairwise-distinct id
fields, and an item whose URL hash is already in the seen set is
skipped without touching the state. -/
theorem claim_no_duplicate_ids (loaded : List Json) (items : List RunItem)
    (h : (loaded.map (objGet "id")).Nodup) :
    ((remoteAfterRun loaded items).map (objGet "id")).Nodup ∧
      ∀ (st : RunState) (ri : RunItem) (u : String),
        ri.item.url = some u → seenHasStr (sha16 u) st.seen = true →
        stepItem st ri = st := by
  constructor
  · obtain ⟨-, -, hnodup, hcross⟩ := runItems_inv loaded items
    rw [remoteAfterRun_eq, List.map_append, List.nodup_append]
    refine ⟨h, hnodup, ?_⟩
    intro x hx hx'
    obtain ⟨l, hl, hlid⟩ := List.mem_map.mp hx
    obtain ⟨r, hr, hrid⟩ := List.mem_map.mp hx'
    exact hcross r hr l hl (hrid.trans (hlid.symm))
  · intro st ri u hurl hseen
    simp [stepItem, hurl, hseen]

/-- Witness for C2: a two-record ledger with distinct ids, a run over
two identical relevant items, and a seen-set skip at a concrete
state. -/
theorem claim_no_duplicate_ids_witness :
    ((remoteAfterRun
          [Json.obj [("id", Json.str "aa")], Json.obj [("id", Json.str "bb")]]
          [⟨⟨"Council news", some "https://example.com/a", "", "The Lens"⟩,
              .ok "" "The city council discussed zoning today.",
              "2025-10-12T00:00:00+00:00"⟩,
            ⟨⟨"Council news", some "https://example.com/a", "", "The Lens"⟩,
              .ok "" "The city council discussed zoning today.",
              "2025-10-12T00:00:00+00:00"⟩]).map (objGet "id")).Nodup ∧
      stepItem ⟨[], [Json.str (sha16 "https://example.com/a")]⟩
          ⟨⟨"Council news", some "https://example.com/a", "", "The Lens"⟩,
            .ok "" "The city council discussed zoning today.",
            "2025-10-12T00:00:00+00:00"⟩ =
        ⟨[], [Json.str (sha16 "https://example.com/a")]⟩ :=
  have h := claim_no_duplicate_ids
    [Json.obj [("id", Json.str "aa")], Json.obj [("id", Json.str "bb")]]
    [⟨⟨"Council news", some "https://example.com/a", "", "The Lens"⟩,
        .ok "" "The city council discussed zoning today.",
        "2025-10-12T00:00:00+00:00"⟩,
      ⟨⟨"Council news", some "https://example.com/a", "", "The Lens"⟩,
        .ok "" "The city council discussed zoning today.",
        "2025-10-12T00:00:00+00:00"⟩]
    (by simp [objGet, List.lookup])
  ⟨h.1, h.2 _ _ "https://example.com/a" rfl (by simp [seenHasStr, isStrJson])⟩

/-! ## C10: falsy ids contribute nothing to the seen set -/

/-- Claim C10: a loaded record whose id field is absent, empty or
otherwise falsy contributes nothing to the seen set, and an item whose
URL hash is not in the seen set is processed: when extraction succeeds
and the relevance gate passes, a fresh record for it is appended. -/
theorem claim_falsy_id_excluded (l1 l2 : List Json)
    (kvs : List (String × Json))
    (h : optTruthy (objGet "id" (Json.obj kvs)) = false) :
    seenIds (l1 ++ Json.obj kvs :: l2) = seenIds (l1 ++ l2) ∧
      ∀ (st : RunState) (ri : RunItem) (u titleExt text : String),
        ri.item.url = some u → seenHasStr (sha16 u) st.seen = false →
        ri.fetch = .ok titleExt text →
        looksRelevant (if titleExt = "" then ri.item.title else titleExt)
            text = true →
        (stepItem st ri).newArticles =
          st.newArticles ++
            [mkRecord (sha16 u) ri.item.source u
              (if titleExt = "" then ri.item.title else titleExt)
              ri.item.published ri.savedAt
              (String.mk (pyStrip text.data))] := by
  constructor
  · unfold seenIds
    rw [List.filterMap_append, List.filterMap_append, List.filterMap_cons]
    rw [h]
    simp
  · intro st ri u tE tx hurl hseen hf hrel
    simp [stepItem, hurl, hseen, hf, hrel]

/-- Witness for C10: a record with an empty-string id is excluded, and
a concrete fresh item is appended. -/
theorem claim_falsy_id_excluded_witness :
    seenIds ([] ++ Json.obj [("id", Json.str "")] ::
        [Json.obj [("id", Json.str "kk")]]) =
      seenIds ([] ++ [Json.obj [("id", Json.str "kk")]]) ∧
      (stepItem ⟨[], []⟩
          ⟨⟨"Zoning", some "https://example.com/a", "", "The Lens"⟩,
            .ok "" "zoning change approved",
            "2025-10-12T00:00:00+00:00"⟩).newArticles =
        [] ++
          [mkRecord (sha16 "https://example.com/a") "The Lens"
            "https://example.com/a" "Zoning" "" "2025-10-12T00:00:00+00:00"
            (String.mk (pyStrip "zoning change approved".data))] :=
  have h := claim_falsy_id_excluded [] [Json.obj [("id", Json.str "kk")]]
    [("id", Json.str "")] (by simp [optTruthy, objGet, jTruthy])
  ⟨h.1,
    h.2 ⟨[], []⟩
      ⟨⟨"Zoning", some "https://example.com/a", "", "The Lens"⟩,
        .ok "" "zoning change approved", "2025-10-12T00:00:00+00:00"⟩
      "https://example.com/a" "" "zoning change approved" rfl rfl rfl
      (by decide)⟩

/-! ## C4: machinery for the Python split used by the vectorizer -/

lemma splitAux_congr {sep : List Char} (hsep : sep ≠ []) :
    ∀ (fuel fuel' : Nat) (acc s : List Char), s.length ≤ fuel →
      s.length ≤ fuel' → splitAux sep fuel acc s = splitAux sep fuel' acc s := by
  intro fuel
  induction fuel with
  | zero =>
    intro fuel' acc s hs hs'
    have hnil : s = [] := List.eq_nil_of_length_eq_zero (Nat.le_zero.mp hs)
    subst hnil
    cases fuel' <;> simp [splitAux]
  | succ f ih =>
    intro fuel' acc s hs hs'
    cases s with
    | nil => cases fuel' <;> simp [splitAux]
    | cons c cs =>
      cases fuel' with
      | zero => exact absurd hs' (by simp)
      | succ f' =>
        have hseplen : 1 ≤ sep.length := List.length_pos.mpr hsep
        simp only [splitAux]
        by_cases hp : sep.isPrefixOf (c :: cs)
        · rw [if_pos hp, if_pos hp]
          congr 1
          apply ih
          · rw [List.length_drop]
            simp only [List.length_cons] at hs ⊢
            omega
          · rw [List.length_drop]
            simp only [List.length_cons] at hs' ⊢
            omega
        · rw [if_neg hp, if_neg hp]
          apply ih
          · simp only [List.length_cons] at hs
            omega
          · simp only [List.length_cons] at hs'
            omega

lemma splitAux_skip {sep : List Char} :
    ∀ (a : List Char) (fuel : Nat) (acc rest : List Char), NoHit sep a rest →
      splitAux sep (fuel + a.length) acc (a ++ rest) =
        splitAux sep fuel (a.reverse ++ acc) rest := by
  intro a
  induction a with
  | nil =>
    intro fuel acc rest _
    rfl
  | cons c a' ih =>
    intro fuel acc rest h
    have h0 : ¬ sep.isPrefixOf (c :: (a' ++ rest)) = true := by
      have := h 0 (by simp)
      simp only [List.drop_zero, List.cons_append] at this
      rw [← isPrefixOf_eq] at this
      simpa using this
    show splitAux sep (fuel + a'.length + 1) acc (c :: (a' ++ rest)) = _
    simp only [splitAux]
    rw [if_neg h0]
    rw [ih fuel (c :: acc) rest ?_]
    · congr 1
      simp
    · intro i hi
      have := h (i + 1) (by simp only [List.length_cons]; omega)
      simpa using this

lemma splitAux_match {sep : List Char} (hsep : sep ≠ []) (fuel : Nat)
    (acc r : List Char) (hfuel : (sep ++ r).length ≤ fuel) :
    splitAux sep fuel acc (sep ++ r) =
      acc.reverse :: splitAux sep r.length [] r := by
  cases fuel with
  | zero =>
    exfalso
    have := List.length_pos.mpr hsep
    simp only [List.length_append] at hfuel
    omega
  | succ f =>
    cases sep with
    | nil => exact absurd rfl hsep
    | cons c₀ sep' =>
      show splitAux (c₀ :: sep') (f + 1) acc (c₀ :: (sep' ++ r)) = _
      simp only [splitAux]
      have hp : (c₀ :: sep').isPrefixOf (c₀ :: (sep' ++ r)) := by
        rw [isPrefixOf_eq]
        exact ⟨r, by simp⟩
      rw [if_pos hp]
      congr 1
      have hdrop : (c₀ :: (sep' ++ r)).drop (c₀ :: sep').length = r := by
        show ((c₀ :: sep') ++ r).drop (c₀ :: sep').length = r
        exact List.drop_left _ _
      rw [hdrop]
      apply splitAux_congr hsep
      · simp only [List.length_append, List.length_cons] at hfuel
        omega
      · exact le_rfl

lemma split_cons {sep : List Char} (hsep : sep ≠ []) (a r : List Char)
    (h : NoHit sep a (sep ++ r)) :
    pySplit sep (a ++ (sep ++ r)) = a :: pySplit sep r := by
  unfold pySplit
  rw [splitAux_congr hsep (a ++ (sep ++ r)).length ((sep ++ r).length + a.length)
    [] _ le_rfl (by simp; omega)]
  rw [splitAux_skip a ((sep ++ r).length) [] (sep ++ r) h]
  rw [splitAux_match hsep _ _ _ le_rfl]
  simp

lemma split_last {sep : List Char} (hsep : sep ≠ []) (a : List Char)
    (h : NoHit sep a []) : pySplit sep a = [a] := by
  unfold pySplit
  calc splitAux sep a.length [] a
      = splitAux sep a.length [] (a ++ []) := by rw [List.append_nil]
    _ = splitAux sep (0 + a.length) [] (a ++ []) := by
        apply splitAux_congr hsep <;> simp
    _ = splitAux sep 0 (a.reverse ++ []) [] := splitAux_skip a 0 [] [] h
    _ = [a] := by simp [splitAux]

lemma noHit_append {sep : List Char} (x y rest : List Char)
    (hx : NoHit sep x (y ++ rest)) (hy : NoHit sep y rest) :
    NoHit sep (x ++ y) rest := by
  intro i hi
  rw [List.length_append] at hi
  rw [List.drop_append_eq_append_drop]
  by_cases hix : i < x.length
  · rw [Nat.sub_eq_zero_of_le (le_of_lt hix), List.drop_zero,
      List.append_assoc]
    exact hx i hix
  · rw [List.drop_eq_nil_of_le (by omega), List.nil_append]
    exact hy (i - x.length) (by omega)

lemma noHit_head_notMem (c₀ : Char) (sep' a rest : List Char)
    (h : c₀ ∉ a) : NoHit (c₀ :: sep') a rest := by
  intro i hi hpre
  have hd : a.drop i ≠ [] := by
    intro h0
    have := List.length_drop i a
    rw [h0] at this
    simp at this
    omega
  obtain ⟨x, d, hxd⟩ := List.exists_cons_of_ne_nil hd
  rw [hxd] at hpre
  have hx : c₀ = x := (List.cons_prefix_cons.mp hpre).1
  apply h
  rw [hx]
  exact List.drop_subset i a (hxd ▸ List.mem_cons_self x d)

lemma noHit_notContain (f rest : List Char)
    (h1 : ¬ ['-', '-', '-'] <:+: f)
    (h2 : ∀ c, rest.head? = some c → c ≠ '-') :
    NoHit ['-', '-', '-'] f rest := by
  intro i hi hpre
  have hd : f.drop i ≠ [] := by
    intro h0
    have := List.length_drop i f
    rw [h0] at this
    simp at this
    omega
  obtain ⟨x, d, hxd⟩ := List.exists_cons_of_ne_nil hd
  rw [hxd, List.cons_append] at hpre
  obtain ⟨hx1, hpre1⟩ := List.cons_prefix_cons.mp hpre
  cases d with
  | nil =>
    simp only [List.nil_append] at hpre1
    obtain ⟨t, ht⟩ := hpre1
    apply h2 '-' _ rfl
    rw [← ht]
    rfl
  | cons y d2 =>
    rw [List.cons_append] at hpre1
    obtain ⟨hy1, hpre2⟩ := List.cons_prefix_cons.mp hpre1
    cases d2 with
    | nil =>
      simp only [List.nil_append] at hpre2
      obtain ⟨t, ht⟩ := hpre2
      apply h2 '-' _ rfl
      rw [← ht]
      rfl
    | cons z d' =>
      rw [List.cons_append] at hpre2
      obtain ⟨hz1, -⟩ := List.cons_prefix_cons.mp hpre2
      apply h1
      refine ⟨f.take i, d', ?_⟩
      conv_rhs => rw [← List.take_append_drop i f]
      rw [hxd, ← hx1, ← hy1, ← hz1, List.append_assoc]
      rfl

lemma dropWhile_of_head_false {p : Char → Bool} {l : List Char}
    (h : ∀ c, l.head? = some c → p c = false) : l.dropWhile p = l := by
  cases l with
  | nil => rfl
  | cons a as =>
    have := h a rfl
    simp [List.dropWhile, this]

lemma noEdgeSpace_head {l : List Char} (h : noEdgeSpace l = true) :
    ∀ c, l.head? = some c → isPySpace c = false := by
  intro c hc
  unfold noEdgeSpace at h
  rw [Bool.and_eq_true] at h
  rw [hc] at h
  simpa using h.1

lemma noEdgeSpace_getLast {l : List Char} (h : noEdgeSpace l = true) :
    ∀ c, l.getLast? = some c → isPySpace c = false := by
  intro c hc
  unfold noEdgeSpace at h
  rw [Bool.and_eq_true] at h
  rw [hc] at h
  simpa using h.2

lemma pyRStrip_of_getLast {l : List Char}
    (h : ∀ c, l.getLast? = some c → isPySpace c = false) : pyRStrip l = l := by
  unfold pyRStrip
  rw [dropWhile_of_head_false ?_, List.reverse_reverse]
  intro c hc
  rw [List.head?_reverse] at hc
  exact h c hc

lemma pyStrip_of_noEdge {l : List Char} (h : noEdgeSpace l = true) :
    pyStrip l = l := by
  unfold pyStrip pyLStrip
  rw [dropWhile_of_head_false (noEdgeSpace_head h),
    pyRStrip_of_getLast (noEdgeSpace_getLast h)]

lemma pyStrip_space_cons {f : List Char} (h : noEdgeSpace f = true) :
    pyStrip (' ' :: f) = f := by
  unfold pyStrip pyLStrip
  rw [show (' ' :: f).dropWhile isPySpace = f.dropWhile isPySpace from by
    simp [List.dropWhile, isPySpace]]
  rw [dropWhile_of_head_false (noEdgeSpace_head h),
    pyRStrip_of_getLast (noEdgeSpace_getLast h)]

lemma pyRStrip_append_newline {x : List Char}
    (h : ∀ c, x.getLast? = some c → isPySpace c = false) :
    pyRStrip (x ++ ['\n']) = x := by
  unfold pyRStrip
  rw [show (x ++ ['\n']).reverse = '\n' :: x.reverse from by simp]
  rw [show ('\n' :: x.reverse).dropWhile isPySpace =
      x.reverse.dropWhile isPySpace from by simp [List.dropWhile, isPySpace]]
  rw [dropWhile_of_head_false ?_, List.reverse_reverse]
  intro c hc
  rw [List.head?_reverse] at hc
  exact h c hc

/-! ## C4: splitting the rendered document on the delimiter -/

lemma record_md_decomp (s t u p v b : String) :
    record_md s t u p v b =
      "---".data ++ (fmPart s t u p v ++ ("---".data ++ bodyPart b)) := by
  rw [record_md,
    show "---\nsource: ".data = "---".data ++ ('\n' :: "source: ".data)
      from by decide,
    show "\ntitle: ".data = '\n' :: "title: ".data from by decide,
    show "\nurl: ".data = '\n' :: "url: ".data from by decide,
    show "\npublished: ".data = '\n' :: "published: ".data from by decide,
    show "\nsaved_at: ".data = '\n' :: "saved_at: ".data from by decide,
    show "\n---\n\n".data = '\n' :: ("---".data ++ ['\n', '\n'])
      from by decide,
    show "\n".data = ['\n'] from by decide]
  simp [fmPart, bodyPart, List.append_assoc]

lemma notInfix_of_noContain {f : String}
    (h : pyContains "---".data f.data = false) :
    ¬ ['-', '-', '-'] <:+: f.data := by
  intro hinf
  have h3 : "---".data = ['-', '-', '-'] := by decide
  have := (pyContains_iff "---".data f.data).mpr (by rw [h3]; exact hinf)
  rw [h] at this
  cases this

lemma head_newline_ne_dash (Y : List Char) :
    ∀ c, ('\n' :: Y).head? = some c → c ≠ '-' := by
  intro c hc
  rw [List.head?_cons] at hc
  obtain rfl : '\n' = c := by injection hc
  decide

lemma noHit_field {f : String} (hf : pyContains "---".data f.data = false)
    (R : List Char) (hR : ∀ c, R.head? = some c → c ≠ '-') :
    NoHit ['-', '-', '-'] f.data R :=
  noHit_notContain _ _ (notInfix_of_noContain hf) hR

lemma noHit_lit {a : List Char} (h : '-' ∉ a) (rest : List Char) :
    NoHit ['-', '-', '-'] a rest :=
  noHit_head_notMem '-' ['-', '-'] a rest h

/-- A `literal ++ (field ++ ('\n' :: tail))` block has no delimiter hit
when the literal is dash-free, the field has no `---` occurrence, and
the tail has no hit. -/
lemma noHit_chunk {f : String} (lit : List Char) (hlit : '-' ∉ lit)
    (hf : pyContains "---".data f.data = false) {tail R0 : List Char}
    (htail : NoHit ['-', '-', '-'] tail R0) :
    NoHit ['-', '-', '-'] (lit ++ (f.data ++ ('\n' :: tail))) R0 := by
  have h2 : NoHit ['-', '-', '-'] ('\n' :: tail) R0 :=
    noHit_append ['\n'] tail R0 (noHit_lit (by decide) _) htail
  have h1 : NoHit ['-', '-', '-'] (f.data ++ ('\n' :: tail)) R0 :=
    noHit_append f.data ('\n' :: tail) R0
      (noHit_field hf _ (head_newline_ne_dash _)) h2
  exact noHit_append lit _ R0 (noHit_lit hlit _) h1

lemma noHit_fmPart (s t u p v : String)
    (hs : pyContains "---".data s.data = false)
    (ht : pyContains "---".data t.data = false)
    (hu : pyContains "---".data u.data = false)
    (hp : pyContains "---".data p.data = false)
    (hv : pyContains "---".data v.data = false)
    (R0 : List Char) :
    NoHit ['-', '-', '-'] (fmPart s t u p v) R0 := by
  unfold fmPart
  exact noHit_append ['\n'] _ R0 (noHit_lit (by decide) _)
    (noHit_chunk "source: ".data (by decide) hs
      (noHit_chunk "title: ".data (by decide) ht
        (noHit_chunk "url: ".data (by decide) hu
          (noHit_chunk "published: ".data (by decide) hp
            (noHit_append "saved_at: ".data _ R0 (noHit_lit (by decide) _)
              (noHit_append v.data ['\n'] R0
                (noHit_field hv _ (head_newline_ne_dash _))
                (noHit_lit (by decide) _)))))))

lemma noHit_bodyPart (b : String)
    (hb : pyContains "---".data b.data = false) :
    NoHit ['-', '-', '-'] (bodyPart b) [] := by
  unfold bodyPart
  exact noHit_append ['\n'] _ [] (noHit_lit (by decide) _)
    (noHit_append ['\n'] _ [] (noHit_lit (by decide) _)
      (noHit_append b.data ['\n'] []
        (noHit_field hb _ (head_newline_ne_dash _)) (noHit_lit (by decide) _)))

lemma parts_record_md (s t u p v b : String)
    (hs : pyContains "---".data s.data = false)
    (ht : pyContains "---".data t.data = false)
    (hu : pyContains "---".data u.data = false)
    (hp : pyContains "---".data p.data = false)
    (hv : pyContains "---".data v.data = false)
    (hb : pyContains "---".data b.data = false) :
    pySplit "---".data (record_md s t u p v b) =
      [[], fmPart s t u p v, bodyPart b] := by
  have hsep : "---".data ≠ [] := by decide
  have h3 : "---".data = ['-', '-', '-'] := by decide
  rw [record_md_decomp]
  have hn1 : NoHit "---".data []
      ("---".data ++ (fmPart s t u p v ++ ("---".data ++ bodyPart b))) := by
    intro i hi
    simp at hi
  have hn2 : NoHit "---".data (fmPart s t u p v)
      ("---".data ++ bodyPart b) := by
    rw [h3]
    exact noHit_fmPart s t u p v hs ht hu hp hv _
  have hn3 : NoHit "---".data (bodyPart b) [] := by
    rw [h3]
    exact noHit_bodyPart b hb
  rw [show "---".data ++ (fmPart s t u p v ++ ("---".data ++ bodyPart b)) =
      [] ++ ("---".data ++ (fmPart s t u p v ++ ("---".data ++ bodyPart b)))
    from rfl]
  rw [split_cons hsep [] _ hn1, split_cons hsep _ _ hn2,
    split_last hsep _ hn3]

/-! ## C4: stripping the frontmatter block and parsing its lines -/

lemma lstrip_fmPart (s t u p v : String) :
    pyLStrip (fmPart s t u p v) =
      "source: ".data ++ (s.data ++ ('\n' :: ("title: ".data ++ (t.data ++
        ('\n' :: ("url: ".data ++ (u.data ++ ('\n' :: ("published: ".data ++
        (p.data ++ ('\n' :: ("saved_at: ".data ++
        (v.data ++ ['\n'])))))))))))))  := rfl

lemma strip_fmPart_ne (s t u p v : String) (hv : noEdgeSpace v.data = true)
    (hvne : v.data ≠ []) :
    pyStrip (fmPart s t u p v) =
      "source: ".data ++ (s.data ++ ('\n' :: ("title: ".data ++ (t.data ++
        ('\n' :: ("url: ".data ++ (u.data ++ ('\n' :: ("published: ".data ++
        (p.data ++ ('\n' :: ("saved_at: ".data ++ v.data)))))))))))) := by
  unfold pyStrip
  rw [lstrip_fmPart]
  rw [show "source: ".data ++ (s.data ++ ('\n' :: ("title: ".data ++
      (t.data ++ ('\n' :: ("url: ".data ++ (u.data ++ ('\n' ::
      ("published: ".data ++ (p.data ++ ('\n' :: ("saved_at: ".data ++
      (v.data ++ ['\n'])))))))))))))  =
      (("source: ".data ++ (s.data ++ ('\n' :: ("title: ".data ++
        (t.data ++ ('\n' :: ("url: ".data ++ (u.data ++ ('\n' ::
        ("published: ".data ++ (p.data ++ ('\n' ::
        "saved_at: ".data))))))))))))  ++ v.data) ++ ['\n']
    from by simp [List.append_assoc]]
  rw [pyRStrip_append_newline ?_]
  · simp [List.append_assoc]
  · intro c hc
    rw [List.getLast?_append_of_ne_nil _ hvne] at hc
    exact noEdgeSpace_getLast hv c hc

lemma dropWhile_append_stop {p : Char → Bool} (A : List Char) {c : Char}
    {B : List Char} (W : List Char) (hA : A.dropWhile p = c :: B) :
    (A ++ W).dropWhile p = c :: (B ++ W) := by
  induction A with
  | nil => cases hA
  | cons a A' ih =>
    by_cases hp : p a = true
    · simp only [List.dropWhile, hp] at hA
      simp only [List.cons_append, List.dropWhile, hp]
      exact ih hA
    · rw [Bool.not_eq_true] at hp
      simp only [List.dropWhile, hp] at hA
      simp only [List.cons_append, List.dropWhile, hp]
      rw [List.cons.injEq] at hA
      rw [hA.1, ← hA.2]
      rfl

lemma strip_fmPart_empty (s t u p : String) :
    pyStrip (fmPart s t u p "") =
      "source: ".data ++ (s.data ++ ('\n' :: ("title: ".data ++ (t.data ++
        ('\n' :: ("url: ".data ++ (u.data ++ ('\n' :: ("published: ".data ++
        (p.data ++ ('\n' :: "saved_at:".data))))))))))) := by
  unfold pyStrip
  rw [lstrip_fmPart]
  rw [show "source: ".data ++ (s.data ++ ('\n' :: ("title: ".data ++
      (t.data ++ ('\n' :: ("url: ".data ++ (u.data ++ ('\n' ::
      ("published: ".data ++ (p.data ++ ('\n' :: ("saved_at: ".data ++
      (("" : String).data ++ ['\n'])))))))))))))  =
      ("source: ".data ++ (s.data ++ ('\n' :: ("title: ".data ++
        (t.data ++ ('\n' :: ("url: ".data ++ (u.data ++ ('\n' ::
        ("published: ".data ++ p.data))))))))))  ++
        ['\n', 's', 'a', 'v', 'e', 'd', '_', 'a', 't', ':', ' ', '\n']
    from by
      rw [show ("" : String).data = [] from rfl]
      simp [List.append_assoc]]
  unfold pyRStrip
  rw [List.reverse_append]
  rw [show (['\n', 's', 'a', 'v', 'e', 'd', '_', 'a', 't', ':', ' ',
      '\n'] : List Char).reverse =
      ['\n', ' ', ':', 't', 'a', '_', 'd', 'e', 'v', 'a', 's', '\n']
    from by decide]
  rw [dropWhile_append_stop
    ['\n', ' ', ':', 't', 'a', '_', 'd', 'e', 'v', 'a', 's', '\n'] _
    (show List.dropWhile isPySpace ['\n', ' ', ':', 't', 'a', '_', 'd',
      'e', 'v', 'a', 's', '\n'] =
      ':' :: ['t', 'a', '_', 'd', 'e', 'v', 'a', 's', '\n'] from by decide)]
  rw [List.reverse_cons, List.reverse_append, List.reverse_reverse,
    List.append_assoc]
  rw [show ((['t', 'a', '_', 'd', 'e', 'v', 'a', 's', '\n'] :
      List Char).reverse ++ [':']) = '\n' :: "saved_at:".data
    from by decide]
  simp [List.append_assoc]

lemma noHit_single {c : Char} {a : List Char} (h : c ∉ a)
    (rest : List Char) : NoHit [c] a rest :=
  noHit_head_notMem c [] a rest h

lemma split_cons_char {c : Char} (a r : List Char)
    (h : NoHit [c] a (c :: r)) :
    pySplit [c] (a ++ (c :: r)) = a :: pySplit [c] r :=
  split_cons (by simp) a r h

lemma notMem_append2 {x : Char} {l1 l2 : List Char} (h1 : x ∉ l1)
    (h2 : x ∉ l2) : x ∉ l1 ++ l2 := by
  intro hm
  rcases List.mem_append.mp hm with h | h
  exacts [h1 h, h2 h]

lemma span_colon (k rest : List Char) (hk : (':') ∉ k) :
    (k ++ ':' :: rest).takeWhile (· ≠ ':') = k ∧
      (k ++ ':' :: rest).dropWhile (· ≠ ':') = ':' :: rest := by
  induction k with
  | nil =>
    rw [List.nil_append]
    constructor
    · rw [List.takeWhile_cons_of_neg (by simp)]
    · rw [List.dropWhile_cons_of_neg (by simp)]
  | cons a k' ih =>
    have ha : a ≠ ':' := fun h => hk (h ▸ List.mem_cons_self a k')
    obtain ⟨ih1, ih2⟩ := ih fun h => hk (List.mem_cons_of_mem a h)
    rw [List.cons_append]
    constructor
    · rw [List.takeWhile_cons_of_pos (by simp [ha]), ih1]
    · rw [List.dropWhile_cons_of_pos (by simp [ha]), ih2]

lemma parseFmLine_key (k : List Char) (hk : (':') ∉ k) (f : List Char) :
    parseFmLine (k ++ (':' :: ' ' :: f)) =
      some (String.mk (pyStrip k), String.mk (pyStrip (' ' :: f))) := by
  obtain ⟨h1, h2⟩ := span_colon k (' ' :: f) hk
  simp only [parseFmLine]
  rw [h1, h2]

lemma parseFmLine_lit (lit keyLit : List Char) (keyS f : String)
    (hlit : lit = keyLit ++ [':', ' ']) (hk : (':') ∉ keyLit)
    (hks : String.mk (pyStrip keyLit) = keyS)
    (hf : noEdgeSpace f.data = true) :
    parseFmLine (lit ++ f.data) = some (keyS, f) := by
  rw [hlit, List.append_assoc]
  have h : parseFmLine (keyLit ++ ([':', ' '] ++ f.data)) =
      some (String.mk (pyStrip keyLit), String.mk (pyStrip (' ' :: f.data))) :=
    parseFmLine_key keyLit hk f.data
  rw [h, pyStrip_space_cons hf, hks]

lemma fm_pairs (s t u p v : String) (hs : fieldOk s) (ht : fieldOk t)
    (hu : fieldOk u) (hp : fieldOk p) (hv : fieldOk v) :
    (pySplit ['\n'] (pyStrip (fmPart s t u p v))).filterMap parseFmLine =
      [("source", s), ("title", t), ("url", u), ("published", p),
        ("saved_at", v)] := by
  obtain ⟨hsn, -, hse⟩ := hs
  obtain ⟨htn, -, hte⟩ := ht
  obtain ⟨hun, -, hue⟩ := hu
  obtain ⟨hpn, -, hpe⟩ := hp
  obtain ⟨hvn, -, hve⟩ := hv
  have hl1 : parseFmLine ("source: ".data ++ s.data) = some ("source", s) :=
    parseFmLine_lit _ "source".data _ _ (by decide) (by decide) (by decide)
      hse
  have hl2 : parseFmLine ("title: ".data ++ t.data) = some ("title", t) :=
    parseFmLine_lit _ "title".data _ _ (by decide) (by decide) (by decide)
      hte
  have hl3 : parseFmLine ("url: ".data ++ u.data) = some ("url", u) :=
    parseFmLine_lit _ "url".data _ _ (by decide) (by decide) (by decide) hue
  have hl4 : parseFmLine ("published: ".data ++ p.data) =
      some ("published", p) :=
    parseFmLine_lit _ "published".data _ _ (by decide) (by decide)
      (by decide) hpe
  have hm1 : ('\n' : Char) ∉ "source: ".data ++ s.data :=
    notMem_append2 (by decide) hsn
  have hm2 : ('\n' : Char) ∉ "title: ".data ++ t.data :=
    notMem_append2 (by decide) htn
  have hm3 : ('\n' : Char) ∉ "url: ".data ++ u.data :=
    notMem_append2 (by decide) hun
  have hm4 : ('\n' : Char) ∉ "published: ".data ++ p.data :=
    notMem_append2 (by decide) hpn
  by_cases hv0 : v.data = []
  · have hveq : v = "" := congrArg String.mk hv0
    subst hveq
    rw [strip_fmPart_empty s t u p]
    rw [show "source: ".data ++ (s.data ++ ('\n' :: ("title: ".data ++
        (t.data ++ ('\n' :: ("url: ".data ++ (u.data ++ ('\n' ::
        ("published: ".data ++ (p.data ++ ('\n' ::
        "saved_at:".data))))))))))) =
        ("source: ".data ++ s.data) ++ ('\n' ::
          (("title: ".data ++ t.data) ++ ('\n' ::
            (("url: ".data ++ u.data) ++ ('\n' ::
              (("published: ".data ++ p.data) ++ ('\n' ::
                "saved_at:".data)))))))
      from by simp [List.append_assoc]]
    have hl5 : parseFmLine "saved_at:".data = some ("saved_at", "") := by
      decide
    rw [split_cons_char _ _ (noHit_single hm1 _),
      split_cons_char _ _ (noHit_single hm2 _),
      split_cons_char _ _ (noHit_single hm3 _),
      split_cons_char _ _ (noHit_single hm4 _),
      split_last (by simp) _ (noHit_single (by decide) _)]
    simp only [List.filterMap_cons, hl1, hl2, hl3, hl4, hl5,
      List.filterMap_nil]
  · rw [strip_fmPart_ne s t u p v hve hv0]
    rw [show "source: ".data ++ (s.data ++ ('\n' :: ("title: ".data ++
        (t.data ++ ('\n' :: ("url: ".data ++ (u.data ++ ('\n' ::
        ("published: ".data ++ (p.data ++ ('\n' :: ("saved_at: ".data ++
        v.data)))))))))))) =
        ("source: ".data ++ s.data) ++ ('\n' ::
          (("title: ".data ++ t.data) ++ ('\n' ::
            (("url: ".data ++ u.data) ++ ('\n' ::
              (("published: ".data ++ p.data) ++ ('\n' ::
                ("saved_at: ".data ++ v.data))))))))
      from by simp [List.append_assoc]]
    have hl5 : parseFmLine ("saved_at: ".data ++ v.data) =
        some ("saved_at", v) :=
      parseFmLine_lit _ "saved_at".data _ _ (by decide) (by decide)
        (by decide) hve
    have hm5 : ('\n' : Char) ∉ "saved_at: ".data ++ v.data :=
      notMem_append2 (by decide) hvn
    rw [split_cons_char _ _ (noHit_single hm1 _),
      split_cons_char _ _ (noHit_single hm2 _),
      split_cons_char _ _ (noHit_single hm3 _),
      split_cons_char _ _ (noHit_single hm4 _),
      split_last (by simp) _ (noHit_single hm5 _)]
    simp only [List.filterMap_cons, hl1, hl2, hl3, hl4, hl5,
      List.filterMap_nil]

lemma strip_bodyPart (b : String) (hb : noEdgeSpace b.data = true) :
    pyStrip (bodyPart b) = b.data := by
  by_cases hb0 : b.data = []
  · rw [show bodyPart b = '\n' :: '\n' :: (b.data ++ ['\n']) from rfl, hb0]
    decide
  · have hls : pyLStrip (bodyPart b) = b.data ++ ['\n'] := by
      unfold pyLStrip bodyPart
      rw [show List.dropWhile isPySpace ('\n' :: '\n' :: (b.data ++ ['\n'])) =
          List.dropWhile isPySpace (b.data ++ ['\n']) from by
        simp [List.dropWhile, isPySpace]]
      apply dropWhile_of_head_false
      intro c hc
      obtain ⟨x, l, hx⟩ := List.exists_cons_of_ne_nil hb0
      rw [hx, List.cons_append, List.head?_cons] at hc
      obtain rfl : x = c := by injection hc
      exact noEdgeSpace_head hb x (by rw [hx]; rfl)
    unfold pyStrip
    rw [hls]
    exact pyRStrip_append_newline (noEdgeSpace_getLast hb)

/-! ## C4: the round trip -/

set_option maxRecDepth 8192 in
/-- Counterexample to C4 as stated: the vectorizer strips the parsed
body (`parts[2].strip()`), so a body with leading whitespace is not
recovered and the round trip fails on it. -/
theorem claim_roundtrip_counterexample :
    parse_md (record_md "The Lens" "Zoning" "https://example.com/a" ""
        "2025-10-12T00:00:00+00:00" " leading space body") ≠
      some ([("source", "The Lens"), ("title", "Zoning"),
        ("url", "https://example.com/a"), ("published", ""),
        ("saved_at", "2025-10-12T00:00:00+00:00")],
        " leading space body") := by
  decide

/-- Claim C4 (amended: the round trip holds for well-formed inputs —
each frontmatter field free of newlines, of `---` occurrences and of
leading/trailing whitespace, and a body free of `---` occurrences and
of leading/trailing whitespace): parsing the rendered document recovers
exactly the record's five frontmatter fields and the body. -/
theorem claim_roundtrip (source title url published savedAt body : String)
    (hs : fieldOk source) (ht : fieldOk title) (hu : fieldOk url)
    (hp : fieldOk published) (hv : fieldOk savedAt)
    (hb1 : pyContains "---".data body.data = false)
    (hb2 : noEdgeSpace body.data = true) :
    parse_md (record_md source title url published savedAt body) =
      some ([("source", source), ("title", title), ("url", url),
        ("published", published), ("saved_at", savedAt)], body) := by
  simp only [parse_md]
  rw [parts_record_md source title url published savedAt body
    hs.2.1 ht.2.1 hu.2.1 hp.2.1 hv.2.1 hb1]
  rw [if_neg (by simp)]
  rw [show ([[], fmPart source title url published savedAt,
      bodyPart body].getD 1 [] : List Char) =
      fmPart source title url published savedAt from rfl]
  rw [show ([[], fmPart source title url published savedAt,
      bodyPart body].getD 2 [] : List Char) = bodyPart body from rfl]
  rw [fm_pairs source title url published savedAt hs ht hu hp hv,
    strip_bodyPart body hb2]

/-- Witness for the amended C4 on a concrete well-formed record. -/
theorem claim_roundtrip_witness :
    parse_md (record_md "The Lens" "Zoning update" "https://example.com/a"
        "Mon, 06 Oct 2025" "2025-10-12T00:00:00+00:00" "Body text here.") =
      some ([("source", "The Lens"), ("title", "Zoning update"),
        ("url", "https://example.com/a"),
        ("published", "Mon, 06 Oct 2025"),
        ("saved_at", "2025-10-12T00:00:00+00:00")], "Body text here.") :=
  claim_roundtrip "The Lens" "Zoning update" "https://example.com/a"
    "Mon, 06 Oct 2025" "2025-10-12T00:00:00+00:00" "Body text here."
    ⟨by decide, by decide, by decide⟩ ⟨by decide, by decide, by decide⟩
    ⟨by decide, by decide, by decide⟩ ⟨by decide, by decide, by decide⟩
    ⟨by decide, by decide, by decide⟩ (by decide) (by decide)

end NolaCrawler
